import Mathlib

/-!
Shallow embedding of the core ingestion-and-classification pipeline of the
`solana-indexer-demo` repository (`src/index.ts`, class `SolanaIndexer`) and
proofs about it.

JavaScript values are modelled as follows: raw token amounts (decimal digit
strings converted with `Number(...)`) as `Int`; human-scaled token amounts
(IEEE doubles produced by `amount / 10 ** decimals` followed by
`Number(x.toFixed(4))`) as exact rationals `ℚ` with `toFixed(4)` modelled by
round-half-up at 4 fractional digits, which is the rounding ECMA-262 `toFixed`
performs on exactly representable values; `null`/`undefined` as `Option`;
a thrown exception that a `catch` turns into a sentinel as an explicit
constructor.  JS `Map` objects (string-keyed, insertion-ordered) are modelled
as association lists in insertion order.
-/

/-- `uiTokenAmount` of an RPC token balance: the raw integer amount (the
source converts the `amount` digit string with `Number(...)`) and the mint's
decimal precision. -/
structure UiTokenAmount where
  amount : Int
  decimals : Nat
deriving Repr, DecidableEq

/-- One entry of `preTokenBalances` / `postTokenBalances` (interface
`TokenBalance` in the source). -/
structure TokenBalance where
  accountIndex : Nat
  mint : String
  uiTokenAmount : UiTokenAmount
deriving Repr, DecidableEq

/-- One value of the `balanceChanges` map built in `parseSwapInstruction`:
`{ mint, decimals, change }`. -/
structure BalanceChange where
  mint : String
  decimals : Nat
  change : Int
deriving Repr, DecidableEq

/-- One leg of a reconstructed swap (interface `TokenTransfer`).  The source
fills `from` and `to` with the empty string. -/
structure TokenTransfer where
  token : String
  amount : ℚ
  decimals : Nat
  fromAccount : String
  toAccount : String
deriving Repr, DecidableEq

/-- Result of `parseSwapInstruction` (interface `SwapDetails`); `kind` models
the literal field `type: 'swap'`. -/
structure SwapDetails where
  kind : String
  inputTransfer : TokenTransfer
  outputTransfer : TokenTransfer
deriving Repr, DecidableEq

/-- `preBalances.forEach(pre => balanceChanges.set(pre.mint, { mint, decimals,
change: -amount }))`: a JS `Map.set`, which REPLACES the value at an existing
key (keeping its position) and otherwise appends a new entry. -/
def setPreEntry : List BalanceChange → TokenBalance → List BalanceChange
  | [], p => [⟨p.mint, p.uiTokenAmount.decimals, -p.uiTokenAmount.amount⟩]
  | c :: rest, p =>
    if c.mint = p.mint then
      ⟨p.mint, p.uiTokenAmount.decimals, -p.uiTokenAmount.amount⟩ :: rest
    else c :: setPreEntry rest p

/-- The seeding pass of `parseSwapInstruction` over `preTokenBalances`. -/
def seedPre (pres : List TokenBalance) : List BalanceChange :=
  pres.foldl setPreEntry []

/-- `postBalances.forEach(post => ...)`: when the mint already has an entry,
mutate it in place with `existing.change += amount`; otherwise `Map.set` a
fresh entry `{ mint, decimals, change: amount }` (appended at the end). -/
def addPostEntry : List BalanceChange → TokenBalance → List BalanceChange
  | [], p => [⟨p.mint, p.uiTokenAmount.decimals, p.uiTokenAmount.amount⟩]
  | c :: rest, p =>
    if c.mint = p.mint then
      ⟨c.mint, c.decimals, c.change + p.uiTokenAmount.amount⟩ :: rest
    else c :: addPostEntry rest p

/-- The `balanceChanges` map of `parseSwapInstruction` after both passes,
in insertion order. -/
def balanceChangesMap (pres posts : List TokenBalance) : List BalanceChange :=
  posts.foldl addPostEntry (seedPre pres)

/-- Sum of raw amounts of a token-balance snapshot set. -/
def snapshotSum (l : List TokenBalance) : Int :=
  (l.map fun p => p.uiTokenAmount.amount).sum

/-- Sum of the signed per-asset net changes of an accumulator state. -/
def sumChanges (m : List BalanceChange) : Int :=
  (m.map fun c => c.change).sum

/-- The asset identifiers currently present in an accumulator state. -/
def mapKeys (m : List BalanceChange) : List String :=
  m.map fun c => c.mint

/-- `Array.from(balanceChanges.values()).filter(x => Math.abs(x.change) > 0)`:
the per-asset changes with the zero-net assets discarded. -/
def changesOf (pres posts : List TokenBalance) : List BalanceChange :=
  (balanceChangesMap pres posts).filter fun x => decide (0 < |x.change|)

/-- The comparison relation of `changes.sort((a, b) => a.change - b.change)`
(ascending by signed net change). -/
def changeLE (a b : BalanceChange) : Prop := a.change ≤ b.change

instance : DecidableRel changeLE := fun a b =>
  inferInstanceAs (Decidable (a.change ≤ b.change))

instance : IsTotal BalanceChange changeLE :=
  ⟨fun a b => le_total a.change b.change⟩

instance : IsTrans BalanceChange changeLE :=
  ⟨fun _ _ _ h1 h2 => le_trans h1 h2⟩

instance : IsRefl BalanceChange changeLE :=
  ⟨fun a => le_refl a.change⟩

/-- `changes.sort((a, b) => a.change - b.change)`: a stable ascending sort. -/
def sortByChange (l : List BalanceChange) : List BalanceChange :=
  List.insertionSort changeLE l

/-- Placeholder used with `headD` / `getLastD`; `parseSwapInstruction` only
reads the head and last of a list proved non-empty (length ≥ 2). -/
def dummyChange : BalanceChange := ⟨"", 0, 0⟩

/-- `formatTokenAmount(amount, decimals)`: `amount / Math.pow(10, decimals)`
followed by `Number(formatted.toFixed(4))` — scale by the asset's own decimal
precision and round to 4 fractional digits (round half-up, the behaviour of
`toFixed` on exactly representable values). -/
def formatTokenAmount (amount : Int) (decimals : Nat) : ℚ :=
  ((round ((amount : ℚ) / 10 ^ decimals * 10 ^ 4) : ℤ) : ℚ) / 10 ^ 4

/-- The input leg built from the most-negative entry: amount is the absolute
value of the change, scaled by that asset's own decimals. -/
def inputLeg (c : BalanceChange) : TokenTransfer :=
  ⟨c.mint, formatTokenAmount |c.change| c.decimals, c.decimals, "", ""⟩

/-- The output leg built from the most-positive entry: amount is the raw
signed change, scaled by that asset's own decimals. -/
def outputLeg (c : BalanceChange) : TokenTransfer :=
  ⟨c.mint, formatTokenAmount c.change c.decimals, c.decimals, "", ""⟩

/-- `parseSwapInstruction(instruction, tx)` (the balance-diff engine).  The
instruction argument is unused by the source body; the inputs that matter are
`tx.meta.preTokenBalances` and `tx.meta.postTokenBalances` (either may be
absent).  Returns `none` when either snapshot set is absent or when fewer than
two assets show a nonzero net change; otherwise builds the two-leg swap record
from the most-negative (input) and most-positive (output) entries of the
sorted change list. -/
def parseSwapInstruction (pre? post? : Option (List TokenBalance)) :
    Option SwapDetails :=
  match pre?, post? with
  | some pres, some posts =>
    if 2 ≤ (changesOf pres posts).length then
      some ⟨"swap",
        inputLeg ((sortByChange (changesOf pres posts)).headD dummyChange),
        outputLeg ((sortByChange (changesOf pres posts)).getLastD dummyChange)⟩
    else none
  | _, _ => none

-- ### Instruction decoder and discriminator table

/-- One compiled instruction of a transaction message: an (optional, per the
source's defensive check) program-id index into the account table, account
indexes, and the opaque payload bytes. -/
structure CompiledInstruction where
  programIdIndex : Option Nat
  accountKeyIndexes : List Nat
  data : List Nat
deriving Repr, DecidableEq

/-- A decoded instruction (interface `Instruction`): `data` is the payload as
a lowercase hex string, and `type?`/`discriminator?` model the optional
`type`/`discriminator` fields assigned only for classified instructions. -/
structure Instruction where
  programId : String
  accounts : List String
  data : String
  type? : Option String
  discriminator? : Option String
deriving Repr, DecidableEq

/-- Lowercase hex digit for a value below 16 (`'0'`..`'9'`, `'a'`..`'f'`). -/
def hexDigit (n : Nat) : Char :=
  Char.ofNat (if n < 10 then 48 + n else 87 + n)

/-- Two lowercase hex digits of one byte. -/
def hexByte (b : Nat) : String :=
  String.mk [hexDigit (b / 16 % 16), hexDigit (b % 16)]

/-- `Buffer.from(bytes).toString('hex')`. -/
def bytesToHex (bs : List Nat) : String :=
  String.join (bs.map hexByte)

/-- The constant `RAYDIUM_INSTRUCTION_TYPES` map (the TypeScript variant of
the pipeline, which is the current one), as a function from 8-byte hex keys
to the semantic operation name; keys outside the fixed table give `none`. -/
def RAYDIUM_INSTRUCTION_TYPES (k : String) : Option String :=
  if k = "8fbe5adac41e33de" then some "swap"
  else if k = "45373366584850" then some "swap"
  else if k = "e9337f012d70c0f0" then some "swap"
  else if k = "f4c069a1b5f233bc" then some "addLiquidity"
  else if k = "4a1c3df8fa781539" then some "removeLiquidity"
  else if k = "0b05a0b39c3cd8ea" then some "createPool"
  else if k = "d4c69119d8ea3088" then some "closePosition"
  else if k = "b4c76604d72c58c2" then some "openPosition"
  else if k = "cd35e4f35f45a845" then some "increaseLiquidity"
  else if k = "b119a7e3d6c6c2e3" then some "decreaseLiquidity"
  else none

/-- `getRaydiumInstructionType(discriminator)`: table lookup, with unknown
keys mapped to `'unknown'`. -/
def getRaydiumInstructionType (discriminator : String) : String :=
  (RAYDIUM_INSTRUCTION_TYPES discriminator).getD "unknown"

/-- The per-instruction decoding step of `processNewSlot`: resolve the
program id and account indexes against the account table (`continue`, i.e.
`none`, when the program-id index is absent or does not resolve; unresolvable
account indexes are dropped), hex-encode the payload, and — when the program
id equals the watched program and the payload is non-empty (JS truthiness of
the hex string) and at least 8 bytes long — classify the first 8 bytes via
the discriminator table.  The source model's `accountKeyIndexes` and `data`
fields are always present (the original `!ix.accountKeyIndexes || !ix.data`
guard checks for `undefined`; an empty array is truthy). -/
def decodeInstruction (watchProgramId : String) (accountKeys : List String)
    (ix : CompiledInstruction) : Option Instruction :=
  match ix.programIdIndex with
  | none => none
  | some i =>
    match accountKeys.get? i with
    | none => none
    | some pid =>
      if pid = watchProgramId ∧ bytesToHex ix.data ≠ "" then
        if 8 ≤ ix.data.length then
          some ⟨pid,
            (ix.accountKeyIndexes.map
              fun idx => (accountKeys.get? idx).getD "").filter
                fun s => decide (s ≠ ""),
            bytesToHex ix.data,
            some (getRaydiumInstructionType (bytesToHex (ix.data.take 8))),
            some (bytesToHex (ix.data.take 8))⟩
        else
          some ⟨pid,
            (ix.accountKeyIndexes.map
              fun idx => (accountKeys.get? idx).getD "").filter
                fun s => decide (s ≠ ""),
            bytesToHex ix.data, none, none⟩
      else
        some ⟨pid,
          (ix.accountKeyIndexes.map
            fun idx => (accountKeys.get? idx).getD "").filter
              fun s => decide (s ≠ ""),
          bytesToHex ix.data, none, none⟩

-- ### Transaction filter

/-- The `programIds` set of a transaction: the distinct program identifiers
its instructions invoke, collected in first-occurrence order (a JS `Set`);
instructions whose program-id index is absent or does not resolve contribute
nothing. -/
def programIdsOf (accountKeys : List String)
    (ixs : List CompiledInstruction) : List String :=
  ixs.foldl
    (fun s ix =>
      match ix.programIdIndex with
      | none => s
      | some i =>
        match accountKeys.get? i with
        | none => s
        | some pid => if pid ∈ s then s else s ++ [pid])
    []

/-- `relevantPrograms`: with an empty watch list, all invoked programs; with
a non-empty watch list, the invoked programs that are watched. -/
def relevantPrograms (watched : List String) (pids : List String) :
    List String :=
  if watched.isEmpty then pids
  else pids.filter fun p => watched.any fun w => decide (w = p)

/-- Whether a transaction passes the filter
(`relevantPrograms.length > 0`). -/
def txMatched (watched accountKeys : List String)
    (ixs : List CompiledInstruction) : Bool :=
  !(relevantPrograms watched (programIdsOf accountKeys ixs)).isEmpty

-- ### Per-transaction processing pipeline

/-- `tx.meta` of a fetched transaction. -/
structure TxMeta where
  err : Option String
  preTokenBalances : Option (List TokenBalance)
  postTokenBalances : Option (List TokenBalance)
  logMessages : Option (List String)
deriving Repr, DecidableEq

/-- `tx.transaction.message`, with the two fields the source checks before
use (`getAccountKeys()` result and `compiledInstructions`). -/
structure TxMessage where
  accountKeys : Option (List String)
  compiledInstructions : Option (List CompiledInstruction)
deriving Repr, DecidableEq

/-- One transaction of a fetched block; `message = none` models
`!tx.transaction || !tx.transaction.message`. -/
structure Tx where
  signatures : List String
  message : Option TxMessage
  meta : Option TxMeta
deriving Repr, DecidableEq

/-- The `TOKEN_SYMBOLS` mapping applied when emitting a swap record
(`TOKEN_SYMBOLS[mint] || mint`). -/
def tokenSymbol (mint : String) : String :=
  if mint = "So11111111111111111111111111111111111111112" then "SOL"
  else if mint = "EPjFWdd5AufqSSqeM2qN1xzybapC8G4wEGGkZwyTDt1v" then "USDC"
  else mint

/-- Apply the symbol mapping to one leg before logging. -/
def symbolize (t : TokenTransfer) : TokenTransfer :=
  { t with token := tokenSymbol t.token }

/-- A record appended to the structured log sink (`Logger.logTransaction`,
`logInstruction`, `logDebug` for swap instructions, `logSwap`,
`logTokenBalances`). -/
inductive LogEvent where
  | transactionLog (signature : String) (programs : List String)
      (instructions : List Instruction)
  | instructionLog (programId : String) (type? discriminator? : Option String)
  | swapDebugLog (discriminator? : Option String) (accounts : List String)
      (data : String)
  | swapLog (input output : TokenTransfer)
  | tokenBalancesLog (pre post : Option (List TokenBalance))
deriving Repr, DecidableEq

/-- The log records emitted for one decoded instruction of a matched
transaction: its `Logger.logInstruction` record, plus — for `swap`-classified
instructions — the `Logger.logDebug` record and, when the balance-diff engine
succeeds, the `Logger.logSwap` record with symbol-mapped legs. -/
def instructionEvents (meta : TxMeta) (inst : Instruction) : List LogEvent :=
  LogEvent.instructionLog inst.programId inst.type? inst.discriminator? ::
    (if inst.type? = some "swap" then
      LogEvent.swapDebugLog inst.discriminator? inst.accounts inst.data ::
        (match parseSwapInstruction meta.preTokenBalances
            meta.postTokenBalances with
         | some d =>
           [LogEvent.swapLog (symbolize d.inputTransfer)
             (symbolize d.outputTransfer)]
         | none => [])
    else [])

/-- The per-transaction body of `processNewSlot`: skip failed or structurally
incomplete transactions, filter by the watch set, decode every instruction
(failures isolated per instruction), and emit the log records.  Returns the
list of log-sink records this transaction produces. -/
def processTransaction (watched : List String) (watchProgramId : String)
    (tx : Tx) : List LogEvent :=
  match tx.meta with
  | none => []
  | some meta =>
    if meta.err.isSome then []
    else
      match tx.message with
      | none => []
      | some msg =>
        match msg.accountKeys, msg.compiledInstructions with
        | some aks, some cixs =>
          if (relevantPrograms watched (programIdsOf aks cixs)).isEmpty then []
          else
            (if (cixs.filterMap (decodeInstruction watchProgramId aks)).isEmpty
             then []
             else
               LogEvent.transactionLog (tx.signatures.headD "")
                 (relevantPrograms watched (programIdsOf aks cixs))
                 (cixs.filterMap (decodeInstruction watchProgramId aks)) ::
               (cixs.filterMap
                   (decodeInstruction watchProgramId aks)).flatMap
                 (instructionEvents meta)) ++
            (if meta.preTokenBalances.isSome || meta.postTokenBalances.isSome
             then [LogEvent.tokenBalancesLog meta.preTokenBalances
               meta.postTokenBalances]
             else [])
        | _, _ => []

/-- The per-block transaction loop: the concatenated log records of all
transactions (`continue` isolates each transaction's failures). -/
def processBlockTxs (watched : List String) (watchProgramId : String)
    (txs : List Tx) : List LogEvent :=
  txs.flatMap (processTransaction watched watchProgramId)

-- ### Resilient per-slot fetch (processNewSlot retry loop)

/-- Outcome of one `connection.getBlock` call, as classified by the source's
`catch`: a block or `null`, a rate-limit error (message containing `429`),
a `Block not available` error, or any other error. -/
inductive FetchResult (β : Type) where
  | success (blk : Option β)
  | rateLimited
  | notAvailable
  | otherError
deriving Repr, DecidableEq

/-- Observable step of the per-slot retry loop. -/
inductive SlotEvent (β : Type) where
  | fetchAttempt (attempt : Nat)
  | processedBlock (blk : β)
  | delayed (ms : Nat)
deriving Repr, DecidableEq

/-- How the per-slot routine finishes: a normal return or a thrown error. -/
inductive SlotOutcome where
  | returned
  | threw
deriving Repr, DecidableEq

/-- `const maxRetries = 3` in `processNewSlot`. -/
def maxRetries : Nat := 3

/-- `const baseDelay = 1000` in `processNewSlot`. -/
def baseDelay : Nat := 1000

/-- The `for (let attempt = 0; attempt < maxRetries; attempt++)` loop of
`processNewSlot`, with the fetch outcome of each attempt given by `fetch`.
A `null` block returns immediately; a fetched block is processed
(`processedBlock`) and then — with no `break` or `return` in the source —
the loop CONTINUES to the next attempt; a rate-limit error sleeps
`baseDelay * 2 ** attempt` and retries; both other error kinds re-throw
(`Block not available` merely skips the error log first). -/
def runAttempts (fetch : Nat → FetchResult β) :
    Nat → Nat → List (SlotEvent β) × SlotOutcome
  | _, 0 => ([], .returned)
  | attempt, fuel + 1 =>
    match fetch attempt with
    | .success none => ([.fetchAttempt attempt], .returned)
    | .success (some b) =>
      let rest := runAttempts fetch (attempt + 1) fuel
      (.fetchAttempt attempt :: .processedBlock b :: rest.1, rest.2)
    | .rateLimited =>
      let rest := runAttempts fetch (attempt + 1) fuel
      (.fetchAttempt attempt :: .delayed (baseDelay * 2 ^ attempt) :: rest.1,
        rest.2)
    | .notAvailable => ([.fetchAttempt attempt], .threw)
    | .otherError => ([.fetchAttempt attempt], .threw)

/-- `processNewSlot(slotInfo)` for one slot: run the bounded retry loop from
attempt 0. -/
def processNewSlotRun (fetch : Nat → FetchResult β) :
    List (SlotEvent β) × SlotOutcome :=
  runAttempts fetch 0 maxRetries

/-- Whether an event marks the processing of a fetched block. -/
def isProcessedEvent : SlotEvent β → Bool
  | .processedBlock _ => true
  | _ => false

-- ### Backfill scheduler (processHistoricalBlocks)

/-- `processHistoricalBlocks` dispatch structure: walk the closed range
`[cur, latest]` in batches of `BATCH_SIZE = 5` slots
(`batchEnd = min(currentSlot + BATCH_SIZE - 1, latestSlot)`), running the
per-slot routine for every slot of a batch; each slot's own `.catch` absorbs
its failure, so the recorded outcome never alters the walk.  `fetch s a` is
the fetch outcome of slot `s` at attempt `a`.  Returns the
(slot, outcome) pairs in dispatch order. -/
def backfillRun (fetch : Nat → Nat → FetchResult β) (cur latest : Nat) :
    List (Nat × SlotOutcome) :=
  if cur ≤ latest then
    ((List.range' cur (min (cur + 4) latest + 1 - cur)).map
        fun s => (s, (processNewSlotRun (fetch s)).2))
      ++ backfillRun fetch (cur + 5) latest
  else []
termination_by latest + 1 - cur
decreasing_by omega

-- ### Concrete inputs used by witnesses

/-- The spec's swap scenario pre-set: `{SOL: 1000000000000}` at 9 decimals. -/
def scenarioPre : List TokenBalance :=
  [⟨0, "SOL", ⟨1000000000000, 9⟩⟩]

/-- The spec's swap scenario post-set: `{SOL: 937431300000, USDC: 789570864}`
(USDC at 6 decimals). -/
def scenarioPost : List TokenBalance :=
  [⟨0, "SOL", ⟨937431300000, 9⟩⟩, ⟨1, "USDC", ⟨789570864, 6⟩⟩]

/-- The swap record the engine produces for the scenario: SOL net change
−62568700000, USDC net change +789570864. -/
def scenarioRecord : SwapDetails :=
  ⟨"swap", inputLeg ⟨"SOL", 9, -62568700000⟩,
    outputLeg ⟨"USDC", 6, 789570864⟩⟩

/-- A transaction whose outcome is a failure (`meta.err` present). -/
def txFailedExample : Tx :=
  ⟨["sig"], none, some ⟨some "err", none, none, none⟩⟩

-- ### Helper lemmas about the balance-diff accumulator

theorem sumChanges_addPostEntry (m : List BalanceChange) (p : TokenBalance) :
    sumChanges (addPostEntry m p) = sumChanges m + p.uiTokenAmount.amount := by
  induction m with
  | nil => simp [addPostEntry, sumChanges]
  | cons c rest ih =>
    by_cases h : c.mint = p.mint
    · simp [addPostEntry, h, sumChanges]; ring
    · simp [addPostEntry, h, sumChanges] at ih ⊢; omega

theorem sumChanges_foldl_addPostEntry (posts : List TokenBalance) :
    ∀ m, sumChanges (posts.foldl addPostEntry m) =
      sumChanges m + snapshotSum posts := by
  induction posts with
  | nil => intro m; simp [snapshotSum]
  | cons p rest ih =>
    intro m
    simp only [List.foldl_cons, ih, sumChanges_addPostEntry]
    simp [snapshotSum]; ring

theorem mem_mapKeys_setPreEntry (m : List BalanceChange) (p : TokenBalance)
    (x : String) :
    x ∈ mapKeys (setPreEntry m p) ↔ x ∈ mapKeys m ∨ x = p.mint := by
  induction m with
  | nil =>
    simp only [setPreEntry, mapKeys, List.map_cons, List.map_nil,
      List.mem_singleton, List.not_mem_nil, false_or]
  | cons c rest ih =>
    by_cases h : c.mint = p.mint
    · simp only [setPreEntry, if_pos h, mapKeys, List.map_cons,
        List.mem_cons] at ih ⊢
      rw [h]
      tauto
    · simp only [setPreEntry, if_neg h, mapKeys, List.map_cons,
        List.mem_cons] at ih ⊢
      tauto

theorem sumChanges_setPreEntry_of_not_mem (m : List BalanceChange)
    (p : TokenBalance) (h : p.mint ∉ mapKeys m) :
    sumChanges (setPreEntry m p) = sumChanges m - p.uiTokenAmount.amount := by
  induction m with
  | nil => simp [setPreEntry, sumChanges]
  | cons c rest ih =>
    simp only [mapKeys, List.map_cons, List.mem_cons] at h
    push_neg at h
    have hcm : ¬ c.mint = p.mint := fun hc => h.1 hc.symm
    have ih' := ih (by simpa [mapKeys] using h.2)
    simp [setPreEntry, hcm, sumChanges] at ih' ⊢
    omega

theorem mem_setPreEntry_self (m : List BalanceChange) (p : TokenBalance) :
    (⟨p.mint, p.uiTokenAmount.decimals, -p.uiTokenAmount.amount⟩ :
      BalanceChange) ∈ setPreEntry m p := by
  induction m with
  | nil => simp [setPreEntry]
  | cons c rest ih =>
    by_cases h : c.mint = p.mint
    · simp [setPreEntry, h]
    · simp [setPreEntry, h]
      right; exact ih

theorem mem_setPreEntry_of_ne (m : List BalanceChange) (p : TokenBalance)
    (c : BalanceChange) (hc : c ∈ m) (hne : c.mint ≠ p.mint) :
    c ∈ setPreEntry m p := by
  induction m with
  | nil => cases hc
  | cons d rest ih =>
    by_cases h : d.mint = p.mint
    · simp only [setPreEntry, if_pos h, List.mem_cons]
      rcases List.mem_cons.mp hc with rfl | hc
      · exact absurd h hne
      · right; exact hc
    · simp only [setPreEntry, if_neg h, List.mem_cons]
      rcases List.mem_cons.mp hc with rfl | hc
      · left; rfl
      · right; exact ih hc

theorem mem_foldl_setPreEntry_of_ne (ps : List TokenBalance) :
    ∀ m (c : BalanceChange), c ∈ m → (∀ q ∈ ps, c.mint ≠ q.mint) →
      c ∈ ps.foldl setPreEntry m := by
  induction ps with
  | nil => intro m c hc _; simpa using hc
  | cons p rest ih =>
    intro m c hc hne
    simp only [List.foldl_cons]
    exact ih _ c (mem_setPreEntry_of_ne m p c hc (hne p (by simp)))
      fun q hq => hne q (by simp [hq])

theorem sumChanges_foldl_setPreEntry (ps : List TokenBalance) :
    ∀ m, (ps.map fun p => p.mint).Nodup →
      (∀ p ∈ ps, p.mint ∉ mapKeys m) →
      sumChanges (ps.foldl setPreEntry m) = sumChanges m - snapshotSum ps := by
  induction ps with
  | nil => intro m _ _; simp [snapshotSum]
  | cons p rest ih =>
    intro m hnd hfresh
    simp only [List.map_cons, List.nodup_cons] at hnd
    simp only [List.foldl_cons]
    have hrest : ∀ q ∈ rest, q.mint ∉ mapKeys (setPreEntry m p) := by
      intro q hq hmem
      rcases (mem_mapKeys_setPreEntry m p q.mint).mp hmem with hin | heq
      · exact hfresh q (by simp [hq]) hin
      · exact hnd.1 (heq ▸ List.mem_map_of_mem (fun t => t.mint) hq)
    rw [ih _ hnd.2 hrest,
      sumChanges_setPreEntry_of_not_mem m p (hfresh p (by simp))]
    simp [snapshotSum]; ring

theorem mem_foldl_setPreEntry_self (ps : List TokenBalance) :
    ∀ m, (ps.map fun t => t.mint).Nodup → ∀ p ∈ ps,
      (⟨p.mint, p.uiTokenAmount.decimals, -p.uiTokenAmount.amount⟩ :
        BalanceChange) ∈ ps.foldl setPreEntry m := by
  induction ps with
  | nil => intro m _ p hp; cases hp
  | cons q rest ih =>
    intro m hnd p hp
    simp only [List.map_cons, List.nodup_cons] at hnd
    simp only [List.foldl_cons]
    rcases List.mem_cons.mp hp with rfl | hp
    · refine mem_foldl_setPreEntry_of_ne rest _ _ (mem_setPreEntry_self m p)
        fun s hs heq => hnd.1 ?_
      have hps : p.mint = s.mint := heq
      rw [hps]
      exact List.mem_map_of_mem (fun t => t.mint) hs
    · exact ih _ hnd.2 p hp

theorem mem_seedPre (pres : List TokenBalance)
    (hnd : (pres.map fun p => p.mint).Nodup) (p : TokenBalance)
    (hp : p ∈ pres) :
    (⟨p.mint, p.uiTokenAmount.decimals, -p.uiTokenAmount.amount⟩ :
      BalanceChange) ∈ seedPre pres :=
  mem_foldl_setPreEntry_self pres [] hnd p hp

-- ### C1

/-- C1.  As stated the claim is FALSE: the seeding pass uses `Map.set`, which
OVERWRITES the entry of a mint already present instead of summing into it,
so a pre-set with two entries for the same asset loses the earlier amount and
conservation fails.  Shown here at an explicit input: two pre entries of mint
"A" with amounts 1 and 2 and an empty post set give an accumulated net change
of −2, while (sum of post) − (sum of pre) = −3. -/
theorem balance_diff_conservation_cex :
    sumChanges (balanceChangesMap
        [⟨0, "A", ⟨1, 0⟩⟩, ⟨1, "A", ⟨2, 0⟩⟩] []) ≠
      snapshotSum [] -
        snapshotSum [(⟨0, "A", ⟨1, 0⟩⟩ : TokenBalance), ⟨1, "A", ⟨2, 0⟩⟩] := by
  decide

/-- C1 (amended).  For every pre/post snapshot pair whose PRE-set has at most
one entry per asset identifier, the sum over all assets of the signed net
changes computed before the zero-change filtering step equals (sum of all
post-set raw amounts) − (sum of all pre-set raw amounts) exactly, with no
rounding; and the per-asset accumulator is seeded with the negated amount of
every pre-set entry.  (When the pre-set repeats an asset identifier the seed
step overwrites the earlier entry rather than summing, and conservation can
fail, as the counterexample shows.  The post-set pass does sum, so post-set
duplicates are harmless.) -/
theorem balance_diff_conservation (pres posts : List TokenBalance)
    (hnd : (pres.map fun p => p.mint).Nodup) :
    sumChanges (balanceChangesMap pres posts) =
      snapshotSum posts - snapshotSum pres ∧
    ∀ p ∈ pres,
      (⟨p.mint, p.uiTokenAmount.decimals, -p.uiTokenAmount.amount⟩ :
        BalanceChange) ∈ seedPre pres := by
  constructor
  · unfold balanceChangesMap
    rw [sumChanges_foldl_addPostEntry]
    unfold seedPre
    rw [sumChanges_foldl_setPreEntry pres [] hnd (by simp [mapKeys])]
    simp [sumChanges]; ring
  · exact fun p hp => mem_seedPre pres hnd p hp

/-- Witness for C1 (amended) at a concrete input with distinct pre mints. -/
theorem balance_diff_conservation_witness :
    (sumChanges (balanceChangesMap
        [⟨0, "a", ⟨5, 0⟩⟩, ⟨1, "b", ⟨7, 2⟩⟩] [⟨0, "c", ⟨9, 3⟩⟩]) =
      snapshotSum [(⟨0, "c", ⟨9, 3⟩⟩ : TokenBalance)] -
        snapshotSum [(⟨0, "a", ⟨5, 0⟩⟩ : TokenBalance), ⟨1, "b", ⟨7, 2⟩⟩]) ∧
    (⟨"a", 0, -5⟩ : BalanceChange) ∈
      seedPre [⟨0, "a", ⟨5, 0⟩⟩, ⟨1, "b", ⟨7, 2⟩⟩] :=
  ⟨(balance_diff_conservation
      [⟨0, "a", ⟨5, 0⟩⟩, ⟨1, "b", ⟨7, 2⟩⟩] [⟨0, "c", ⟨9, 3⟩⟩] (by decide)).1,
   (balance_diff_conservation
      [⟨0, "a", ⟨5, 0⟩⟩, ⟨1, "b", ⟨7, 2⟩⟩] [⟨0, "c", ⟨9, 3⟩⟩] (by decide)).2
     ⟨0, "a", ⟨5, 0⟩⟩ (by simp)⟩

-- ### C4

/-- C4.  For every pre/post snapshot pair (both present), the balance-diff
engine returns `none` exactly when fewer than two assets carry a nonzero
net change in its per-asset accumulator (zero-net assets are discarded by the
filter before counting); with two or more nonzero-change assets — in
particular exactly two — it returns a swap record. -/
theorem two_leg_minimum (pres posts : List TokenBalance) :
    parseSwapInstruction (some pres) (some posts) = none ↔
      (changesOf pres posts).length < 2 := by
  unfold parseSwapInstruction
  by_cases h : 2 ≤ (changesOf pres posts).length
  · simp [h, Nat.not_lt_of_le h]
  · simp [h, Nat.lt_of_not_le h]

-- ### C10

/-- C10.  Whenever the pre-balance snapshot set or the post-balance snapshot
set is absent (not only when both are), the balance-diff engine returns
`none` (without raising: it is a total function); a swap record is only
produced when both snapshot sets are present. -/
theorem parse_swap_missing_balances (pre? post? : Option (List TokenBalance)) :
    parseSwapInstruction none post? = none ∧
    parseSwapInstruction pre? none = none ∧
    (∀ r, parseSwapInstruction pre? post? = some r →
      pre?.isSome ∧ post?.isSome) := by
  refine ⟨rfl, ?_, ?_⟩
  · cases pre? <;> rfl
  · intro r h
    cases pre? <;> cases post? <;> simp_all [parseSwapInstruction]

/-- Witness for C10 at concrete inputs: a present pre/post pair with two
nonzero-change assets yields a record, and the theorem then certifies both
snapshot sets present. -/
theorem parse_swap_missing_balances_witness :
    (some [(⟨0, "a", ⟨5, 0⟩⟩ : TokenBalance)]).isSome ∧
    (some [(⟨0, "b", ⟨5, 0⟩⟩ : TokenBalance)]).isSome :=
  (parse_swap_missing_balances (some [⟨0, "a", ⟨5, 0⟩⟩])
      (some [⟨0, "b", ⟨5, 0⟩⟩])).2.2
    ⟨"swap", inputLeg ⟨"a", 0, -5⟩, outputLeg ⟨"b", 0, 5⟩⟩ rfl

-- ### C2

/-- C2.  The claim is RIGHT about the bound (at most 3 fetch attempts) and
the backoff (`baseDelay * 2 ** attempt` after a rate-limit failure), but the
code contradicts the no-duplicate-processing part: the retry loop has no
`break`/`return` after a successful iteration, so a block fetched
successfully at attempt 0 is fetched and processed again at attempts 1
and 2.  This theorem evaluates the loop at the failing input (every fetch
succeeds with the same available block): the block is processed 3 times, not
once.  The second conjunct shows the intended recovery path (rate limits at
attempts 0 and 1 with delays 1000 ms and 2000 ms, success at the final
attempt 2): there the block is processed exactly once — only because the
attempt bound, not a `break`, stops the loop. -/
theorem process_new_slot_duplicate_processing :
    ((processNewSlotRun fun _ => FetchResult.success (some 0)).1.countP
        isProcessedEvent = 3 ∧
      (processNewSlotRun fun _ =>
        FetchResult.success (some 0)).2 = SlotOutcome.returned) ∧
    (processNewSlotRun fun a =>
        if a < 2 then FetchResult.rateLimited
        else FetchResult.success (some 0)).1 =
      [SlotEvent.fetchAttempt 0, SlotEvent.delayed 1000,
       SlotEvent.fetchAttempt 1, SlotEvent.delayed 2000,
       SlotEvent.fetchAttempt 2, SlotEvent.processedBlock 0] := by
  decide

-- ### Helper lemmas for sorted lists and the backfill walk

theorem headD_mem {α : Type} (l : List α) (d : α) (h : l ≠ []) :
    l.headD d ∈ l := by
  cases l with
  | nil => exact absurd rfl h
  | cons a t => exact List.mem_cons_self a t

theorem getLastD_mem {α : Type} :
    ∀ (l : List α) (d : α), l ≠ [] → l.getLastD d ∈ l := by
  intro l
  induction l with
  | nil => intro d h; exact absurd rfl h
  | cons a t ih =>
    intro d _
    rw [List.getLastD_cons]
    by_cases ht : t = []
    · subst ht; exact List.mem_cons_self a []
    · exact List.mem_cons_of_mem a (ih a ht)

theorem sorted_headD_le (l : List BalanceChange)
    (hs : List.Sorted changeLE l) :
    ∀ c ∈ l, (l.headD dummyChange).change ≤ c.change := by
  cases l with
  | nil => intro c hc; cases hc
  | cons a t =>
    intro c hc
    rcases List.mem_cons.mp hc with rfl | hc
    · exact le_refl _
    · exact List.rel_of_sorted_cons hs c hc

theorem sorted_le_getLastD :
    ∀ (l : List BalanceChange), List.Sorted changeLE l →
      ∀ (d : BalanceChange), ∀ c ∈ l, c.change ≤ (l.getLastD d).change := by
  intro l
  induction l with
  | nil => intro _ d c hc; cases hc
  | cons a t ih =>
    intro hs d c hc
    rw [List.getLastD_cons]
    by_cases ht : t = []
    · subst ht
      rcases List.mem_cons.mp hc with rfl | hc
      · exact le_refl _
      · cases hc
    · rcases List.mem_cons.mp hc with rfl | hc
      · obtain ⟨b, tb, rfl⟩ : ∃ b tb, t = b :: tb := by
          cases t with
          | nil => exact absurd rfl ht
          | cons b tb => exact ⟨b, tb, rfl⟩
        have hab : changeLE c b := List.rel_of_sorted_cons hs b (by simp)
        have hb : b.change ≤ ((b :: tb).getLastD c).change :=
          ih hs.of_cons c b (by simp)
        exact le_trans hab hb
      · exact ih hs.of_cons a c hc

theorem backfillRun_fst_eq {β : Type} (fetch : Nat → Nat → FetchResult β) :
    ∀ n A B, B + 1 - A ≤ n → A ≤ B →
      (backfillRun fetch A B).map Prod.fst = List.range' A (B + 1 - A) := by
  intro n
  induction n with
  | zero => intro A B hn hAB; omega
  | succ n ih =>
    intro A B hn hAB
    rw [backfillRun, if_pos hAB, List.map_append, List.map_map]
    have hfst :
        (Prod.fst ∘ fun s => (s, (processNewSlotRun (fetch s)).2)) =
          (id : Nat → Nat) := rfl
    rw [hfst, List.map_id]
    by_cases h5 : A + 5 ≤ B
    · have hmin : min (A + 4) B = A + 4 := by omega
      rw [hmin, ih (A + 5) B (by omega) (by omega)]
      have h1 : A + 4 + 1 - A = 5 := by omega
      have h2 : B + 1 - A = B + 1 - (A + 5) + 5 := by omega
      rw [h1, h2]
      exact List.range'_append_1 A 5 (B + 1 - (A + 5))
    · have hmin : min (A + 4) B = B := by omega
      rw [hmin, backfillRun, if_neg (by omega : ¬ A + 5 ≤ B)]
      simp

-- ### C3

/-- C3.  For every closed slot range `[A, B]` with `A ≤ B`, the backfill
scheduler dispatches every slot of `[A, B]` exactly once, in ascending order:
its fixed-size batches partition the range (the dispatched-slot sequence IS
`A, A+1, ..., B`), so no slot is skipped or dispatched twice, and — since the
walk is the same for every per-slot outcome function `fetch` — individual
slot failures never prevent the remaining slots from being attempted. -/
theorem backfill_completeness {β : Type} (fetch : Nat → Nat → FetchResult β)
    (A B : Nat) (hAB : A ≤ B) :
    (backfillRun fetch A B).map Prod.fst = List.range' A (B + 1 - A) ∧
    ∀ s, ((backfillRun fetch A B).map Prod.fst).count s =
      if A ≤ s ∧ s ≤ B then 1 else 0 := by
  have hmain := backfillRun_fst_eq fetch (B + 1 - A) A B le_rfl hAB
  refine ⟨hmain, fun s => ?_⟩
  rw [hmain]
  by_cases hs : A ≤ s ∧ s ≤ B
  · rw [if_pos hs]
    exact List.count_eq_one_of_mem (List.nodup_range' A (B + 1 - A))
      (List.mem_range'_1.mpr ⟨hs.1, by omega⟩)
  · rw [if_neg hs]
    refine List.count_eq_zero_of_not_mem fun hmem => ?_
    rw [List.mem_range'_1] at hmem
    omega

/-- Witness for C3 on the concrete range `[3, 14]` with every slot failing
terminally: all twelve slots are still dispatched, each exactly once. -/
theorem backfill_completeness_witness :
    (backfillRun (fun _ _ => (FetchResult.otherError : FetchResult Nat))
        3 14).map Prod.fst = List.range' 3 12 ∧
    ((backfillRun (fun _ _ => (FetchResult.otherError : FetchResult Nat))
        3 14).map Prod.fst).count 7 = 1 :=
  ⟨(backfill_completeness (fun _ _ => FetchResult.otherError) 3 14
      (by decide)).1,
   ((backfill_completeness (fun _ _ => FetchResult.otherError) 3 14
      (by decide)).2 7).trans (by decide)⟩

-- ### C5

/-- C5.  Whenever the balance-diff engine returns a swap record, the input
leg comes from an asset whose net change is minimal (the most negative) among
the nonzero changes — its amount being the absolute value of that change
scaled by that asset's own decimal precision and rounded to 4 fractional
digits — and the output leg comes from an asset whose net change is maximal
(the most positive), scaled by its own precision the same way.  (The spec's
concrete SOL/USDC scenario is checked in the witness: input leg
`(SOL, 62.5687)`, output leg `(USDC, 789.5709)`.) -/
theorem swap_legs (pres posts : List TokenBalance) (r : SwapDetails)
    (h : parseSwapInstruction (some pres) (some posts) = some r) :
    ∃ cin cout,
      cin ∈ changesOf pres posts ∧ cout ∈ changesOf pres posts ∧
      (∀ c ∈ changesOf pres posts,
        cin.change ≤ c.change ∧ c.change ≤ cout.change) ∧
      r.inputTransfer.token = cin.mint ∧
      r.inputTransfer.amount = formatTokenAmount |cin.change| cin.decimals ∧
      r.inputTransfer.decimals = cin.decimals ∧
      r.outputTransfer.token = cout.mint ∧
      r.outputTransfer.amount = formatTokenAmount cout.change cout.decimals ∧
      r.outputTransfer.decimals = cout.decimals := by
  simp only [parseSwapInstruction] at h
  by_cases hlen : 2 ≤ (changesOf pres posts).length
  · rw [if_pos hlen] at h
    injection h with h
    subst h
    have hperm : List.Perm (sortByChange (changesOf pres posts))
        (changesOf pres posts) :=
      List.perm_insertionSort changeLE (changesOf pres posts)
    have hsorted : List.Sorted changeLE (sortByChange (changesOf pres posts)) :=
      List.sorted_insertionSort changeLE (changesOf pres posts)
    have hne : sortByChange (changesOf pres posts) ≠ [] := by
      intro h0
      have hl := hperm.length_eq
      rw [h0] at hl
      simp at hl
      omega
    refine ⟨(sortByChange (changesOf pres posts)).headD dummyChange,
      (sortByChange (changesOf pres posts)).getLastD dummyChange,
      hperm.mem_iff.mp (headD_mem _ _ hne),
      hperm.mem_iff.mp (getLastD_mem _ _ hne),
      fun c hc => ?_, rfl, rfl, rfl, rfl, rfl, rfl⟩
    have hc' : c ∈ sortByChange (changesOf pres posts) := hperm.mem_iff.mpr hc
    exact ⟨sorted_headD_le _ hsorted c hc',
      sorted_le_getLastD _ hsorted dummyChange c hc'⟩
  · rw [if_neg hlen] at h
    cases h

/-- Witness for C5 on the spec's scenario, with the concrete leg amounts
62.5687 and 789.5709 (as exact rationals). -/
theorem swap_legs_witness :
    parseSwapInstruction (some scenarioPre) (some scenarioPost) =
      some scenarioRecord ∧
    scenarioRecord.inputTransfer.token = "SOL" ∧
    scenarioRecord.inputTransfer.amount = 625687 / 10000 ∧
    scenarioRecord.outputTransfer.token = "USDC" ∧
    scenarioRecord.outputTransfer.amount = 7895709 / 10000 ∧
    ∃ cin cout,
      cin ∈ changesOf scenarioPre scenarioPost ∧
      cout ∈ changesOf scenarioPre scenarioPost ∧
      (∀ c ∈ changesOf scenarioPre scenarioPost,
        cin.change ≤ c.change ∧ c.change ≤ cout.change) ∧
      scenarioRecord.inputTransfer.token = cin.mint ∧
      scenarioRecord.inputTransfer.amount =
        formatTokenAmount |cin.change| cin.decimals ∧
      scenarioRecord.inputTransfer.decimals = cin.decimals ∧
      scenarioRecord.outputTransfer.token = cout.mint ∧
      scenarioRecord.outputTransfer.amount =
        formatTokenAmount cout.change cout.decimals ∧
      scenarioRecord.outputTransfer.decimals = cout.decimals := by
  refine ⟨rfl, rfl, ?_, rfl, ?_,
    swap_legs scenarioPre scenarioPost scenarioRecord rfl⟩
  · show formatTokenAmount |(-62568700000 : Int)| 9 = 625687 / 10000
    have habs : |(-62568700000 : Int)| = 62568700000 := by decide
    rw [habs]
    unfold formatTokenAmount
    rw [round_eq]
    norm_num
  · show formatTokenAmount (789570864 : Int) 6 = 7895709 / 10000
    unfold formatTokenAmount
    rw [round_eq]
    norm_num

-- ### C6

/-- C6.  As stated the claim is FALSE: with an empty WatchSet the filter
matches a transaction only if it invokes at least one program; a transaction
with no instructions (hence an empty invoked-program set) is NOT matched,
because `relevantPrograms` is then empty.  Counterexample: empty watch set,
empty account table, no instructions. -/
theorem watch_set_empty_cex : txMatched [] [] [] = false := rfl

/-- C6 (amended).  The transaction filter matches a transaction iff either
the WatchSet is empty AND the transaction invokes at least one program, or
the WatchSet is non-empty and it has a nonempty intersection with the set of
program identifiers invoked by the transaction's instructions.  (The
original claim's "empty WatchSet matches every transaction" fails exactly on
transactions whose invoked-program set is empty.) -/
theorem watch_set_semantics (watched accountKeys : List String)
    (ixs : List CompiledInstruction) :
    txMatched watched accountKeys ixs = true ↔
      ((watched = [] ∧ programIdsOf accountKeys ixs ≠ []) ∨
       (watched ≠ [] ∧ ∃ p ∈ programIdsOf accountKeys ixs, p ∈ watched)) := by
  cases watched with
  | nil =>
    simp [txMatched, relevantPrograms]
  | cons w ws =>
    simp [txMatched, relevantPrograms, List.filter_eq_nil_iff]
    constructor
    · rintro ⟨p, hp, hw⟩
      refine ⟨p, hp, ?_⟩
      by_cases hwp : w = p
      · exact Or.inl hwp.symm
      · exact Or.inr (hw hwp)
    · rintro ⟨p, hp, hw⟩
      refine ⟨p, hp, ?_⟩
      rcases hw with rfl | hin
      · intro hwp; exact absurd rfl hwp
      · intro _; exact hin

-- ### C7

/-- C7.  Decoding is a total function (it never raises: every raw instruction
yields `none` — the source's `continue` — or a decoded instruction), and for
every payload shorter than 8 bytes the decoded instruction's operation type
and discriminator are both absent. -/
theorem decode_short_payload_unclassified (w : String) (aks : List String)
    (ix : CompiledInstruction) (inst : Instruction)
    (hdec : decodeInstruction w aks ix = some inst)
    (hlen : ix.data.length < 8) :
    inst.type? = none ∧ inst.discriminator? = none := by
  unfold decodeInstruction at hdec
  cases hpi : ix.programIdIndex with
  | none => simp only [hpi] at hdec; cases hdec
  | some i =>
    simp only [hpi] at hdec
    cases hak : aks.get? i with
    | none => simp only [hak] at hdec; cases hdec
    | some pid =>
      simp only [hak] at hdec
      by_cases hcond : pid = w ∧ bytesToHex ix.data ≠ ""
      · rw [if_pos hcond, if_neg (by omega : ¬ 8 ≤ ix.data.length)] at hdec
        injection hdec with h
        subst h
        exact ⟨rfl, rfl⟩
      · rw [if_neg hcond] at hdec
        injection hdec with h
        subst h
        exact ⟨rfl, rfl⟩

/-- Witness for C7: a 3-byte payload on the watched program decodes without
classification. -/
theorem decode_short_payload_unclassified_witness :
    (⟨"W", ["W"], bytesToHex [1, 2, 3], none, none⟩ : Instruction).type? =
        none ∧
      (⟨"W", ["W"], bytesToHex [1, 2, 3], none, none⟩ :
        Instruction).discriminator? = none :=
  decode_short_payload_unclassified "W" ["W"] ⟨some 0, [0], [1, 2, 3]⟩
    ⟨"W", ["W"], bytesToHex [1, 2, 3], none, none⟩ rfl (by decide)

-- ### C8

theorem bytesToHex_cons_ne_empty (b : Nat) (bs : List Nat) :
    bytesToHex (b :: bs) ≠ "" := by
  intro h
  have hd := congrArg String.data h
  simp [bytesToHex, hexByte] at hd

theorem decode_classifies (w : String) (aks : List String)
    (ix : CompiledInstruction) (i : Nat) (inst : Instruction)
    (hpi : ix.programIdIndex = some i) (hw : aks.get? i = some w)
    (hdec : decodeInstruction w aks ix = some inst)
    (hlen : 8 ≤ ix.data.length) :
    inst.type? =
      some (getRaydiumInstructionType (bytesToHex (ix.data.take 8))) := by
  have hne : bytesToHex ix.data ≠ "" := by
    cases hd : ix.data with
    | nil => rw [hd] at hlen; simp at hlen
    | cons b bs => exact hd ▸ bytesToHex_cons_ne_empty b bs
  unfold decodeInstruction at hdec
  simp only [hpi, hw] at hdec
  rw [if_pos ⟨trivial, hne⟩, if_pos hlen] at hdec
  injection hdec with h
  subst h
  rfl

/-- C8.  The discriminator table is a pure total function on hex keys: an
instruction with matching program id whose payload begins with bytes
`8fbe5adac41e33de` classifies as `swap`, one beginning with
`0b05a0b39c3cd8ea` classifies as `createPool`, and any (8-byte-or-longer)
payload whose 8-byte prefix is outside the fixed table classifies as
`unknown`. -/
theorem raydium_classification (w : String) (aks : List String)
    (ix : CompiledInstruction) (i : Nat) (inst : Instruction)
    (hpi : ix.programIdIndex = some i) (hw : aks.get? i = some w)
    (hdec : decodeInstruction w aks ix = some inst) :
    (ix.data.take 8 = [0x8f, 0xbe, 0x5a, 0xda, 0xc4, 0x1e, 0x33, 0xde] →
      inst.type? = some "swap") ∧
    (ix.data.take 8 = [0x0b, 0x05, 0xa0, 0xb3, 0x9c, 0x3c, 0xd8, 0xea] →
      inst.type? = some "createPool") ∧
    (8 ≤ ix.data.length →
      RAYDIUM_INSTRUCTION_TYPES (bytesToHex (ix.data.take 8)) = none →
      inst.type? = some "unknown") := by
  have hlen8 : ∀ (l : List Nat), ix.data.take 8 = l → l.length = 8 →
      8 ≤ ix.data.length := by
    intro l ht hl
    have := congrArg List.length ht
    rw [List.length_take, hl] at this
    omega
  refine ⟨fun ht => ?_, fun ht => ?_, fun hlen htab => ?_⟩
  · rw [decode_classifies w aks ix i inst hpi hw hdec
      (hlen8 _ ht (by decide)), ht]
    decide
  · rw [decode_classifies w aks ix i inst hpi hw hdec
      (hlen8 _ ht (by decide)), ht]
    decide
  · rw [decode_classifies w aks ix i inst hpi hw hdec hlen]
    unfold getRaydiumInstructionType
    rw [htab]
    rfl

/-- Witness for C8: a concrete swap-discriminator payload on the watched
program decodes with operation type `swap`. -/
theorem raydium_classification_witness :
    (⟨"P", [], bytesToHex [0x8f, 0xbe, 0x5a, 0xda, 0xc4, 0x1e, 0x33, 0xde],
        some "swap",
        some (bytesToHex [0x8f, 0xbe, 0x5a, 0xda, 0xc4, 0x1e, 0x33, 0xde])⟩ :
      Instruction).type? = some "swap" :=
  (raydium_classification "P" ["P"]
      ⟨some 0, [], [0x8f, 0xbe, 0x5a, 0xda, 0xc4, 0x1e, 0x33, 0xde]⟩ 0 _
      rfl rfl (by decide)).1 (by decide)

-- ### C9

/-- C9.  Every transaction whose outcome is a failure (`meta.err` present) or
whose metadata is absent is excluded from all downstream processing: it emits
no log records at all (no transaction, instruction, swap-debug, swap, or
token-balance record — hence no filtering, decoding, classification or
balance differencing output), and removing it from a block's transaction
list leaves the block's emitted records unchanged. -/
theorem failed_tx_excluded (watched : List String) (watchProgramId : String)
    (tx : Tx)
    (h : tx.meta = none ∨ ∃ m, tx.meta = some m ∧ m.err.isSome) :
    processTransaction watched watchProgramId tx = [] ∧
    ∀ pre post, processBlockTxs watched watchProgramId (pre ++ tx :: post) =
      processBlockTxs watched watchProgramId (pre ++ post) := by
  have h1 : processTransaction watched watchProgramId tx = [] := by
    rcases h with hnone | ⟨m, hm, herr⟩
    · unfold processTransaction
      rw [hnone]
    · unfold processTransaction
      rw [hm]
      simp [herr]
  refine ⟨h1, fun pre post => ?_⟩
  unfold processBlockTxs
  simp [h1]

/-- Witness for C9 on a concrete failed transaction inside a one-element
block. -/
theorem failed_tx_excluded_witness :
    processTransaction [] "" txFailedExample = [] ∧
    processBlockTxs [] "" ([] ++ txFailedExample :: []) =
      processBlockTxs [] "" ([] ++ []) :=
  ⟨(failed_tx_excluded [] "" txFailedExample
      (Or.inr ⟨⟨some "err", none, none, none⟩, rfl, rfl⟩)).1,
   (failed_tx_excluded [] "" txFailedExample
      (Or.inr ⟨⟨some "err", none, none, none⟩, rfl, rfl⟩)).2 [] []⟩
